import Mathlib

/-!
Verification of the MediBridge Connect client reconciliation engine
(`src/hooks/useMessages.ts`) and the paginated history fetch helper of
the API client (`src/lib/api.ts`), against the natural-language design
specification of the real-time message delivery and two-phase update
protocol.

The embedding is shallow: the React hook's message-list state updaters
become pure functions on `List Message`, the connection/room lifecycle
of the hook becomes a state machine on an explicit record, and the
`sendMessage` callback becomes a function parameterised by the outcome
of its REST call.
-/

namespace MediBridge

/-- The `MessageOut` record of `src/lib/api.ts`.  `translated_content` and
`audio_url` are nullable in the source and become `Option String`;
`created_at` (an ISO timestamp string in the source, produced and compared
via `Date`) is embedded as its epoch value in milliseconds. -/
structure Message where
  id : String
  session_id : String
  sender_id : String
  content : String
  translated_content : Option String
  audio_url : Option String
  created_at : Nat
deriving DecidableEq, Repr

/-- The payload of a `message_updated` event: `{ id, translated_content }`
(`onMessageUpdated` in `src/hooks/useMessages.ts`). -/
structure MessageUpdate where
  id : String
  translated_content : String
deriving DecidableEq, Repr

/-- JavaScript `String.prototype.startsWith`, embedded on the character
sequences of the two strings. -/
def strStartsWith (s p : String) : Bool := p.data.isPrefixOf s.data

/-- The `new_message` handler of `src/hooks/useMessages.ts` (`onNewMessage`):
remove any optimistic placeholder with matching content and sender, then
append unless the (real) id is already present. -/
def onNewMessage (msg : Message) (prev : List Message) : List Message :=
  let withoutOptimistic := prev.filter fun m =>
    !strStartsWith m.id "temp-" || m.content != msg.content || m.sender_id != msg.sender_id
  if withoutOptimistic.any fun m => m.id == msg.id then withoutOptimistic
  else withoutOptimistic ++ [msg]

/-- The `message_updated` handler of `src/hooks/useMessages.ts`
(`onMessageUpdated`): replace `translated_content` of the message whose id
matches, leave every other message as it is. -/
def onMessageUpdated (u : MessageUpdate) (prev : List Message) : List Message :=
  prev.map fun m =>
    if m.id == u.id then { m with translated_content := some u.translated_content } else m

/-- Ids of the server-assigned (non-optimistic) entries of a list.  Optimistic
ids are recognizable by their `temp-` tag (`src/hooks/useMessages.ts`). -/
def serverIds (l : List Message) : List String :=
  (l.filter fun m => !strStartsWith m.id "temp-").map Message.id

/-- A list contains each server-assigned id at most once. -/
def ServerNodup (l : List Message) : Prop := (serverIds l).Nodup

instance (l : List Message) : Decidable (ServerNodup l) := by
  unfold ServerNodup; infer_instance

lemma serverIds_cons_temp (a : Message) (l : List Message)
    (h : strStartsWith a.id "temp-" = true) : serverIds (a :: l) = serverIds l := by
  simp [serverIds, List.filter_cons, h]

lemma serverIds_cons_server (a : Message) (l : List Message)
    (h : strStartsWith a.id "temp-" = false) :
    serverIds (a :: l) = a.id :: serverIds l := by
  simp [serverIds, List.filter_cons, h]

lemma serverIds_append (l₁ l₂ : List Message) :
    serverIds (l₁ ++ l₂) = serverIds l₁ ++ serverIds l₂ := by
  simp [serverIds, List.filter_append]

lemma mem_serverIds {x : String} {l : List Message} :
    x ∈ serverIds l ↔ ∃ m ∈ l, strStartsWith m.id "temp-" = false ∧ m.id = x := by
  simp only [serverIds, List.mem_map, List.mem_filter, Bool.not_eq_true']
  tauto

/-- Filtering by a predicate that keeps every non-optimistic entry leaves the
server-assigned id sequence untouched. -/
lemma serverIds_filter_keep (p : Message → Bool)
    (hp : ∀ m, strStartsWith m.id "temp-" = false → p m = true) :
    ∀ l : List Message, serverIds (l.filter p) = serverIds l := by
  intro l
  induction l with
  | nil => rfl
  | cons a l ih =>
    cases hs : strStartsWith a.id "temp-" with
    | false =>
      rw [show List.filter p (a :: l) = a :: List.filter p l by
        simp [List.filter_cons, hp a hs]]
      rw [serverIds_cons_server a _ hs, serverIds_cons_server a l hs, ih]
    | true =>
      cases hpa : p a with
      | false =>
        rw [show List.filter p (a :: l) = List.filter p l by
          simp [List.filter_cons, hpa]]
        rw [serverIds_cons_temp a l hs, ih]
      | true =>
        rw [show List.filter p (a :: l) = a :: List.filter p l by
          simp [List.filter_cons, hpa]]
        rw [serverIds_cons_temp a _ hs, serverIds_cons_temp a l hs, ih]

/-- One `new_message` event preserves the at-most-once property of
server-assigned ids. -/
lemma onNewMessage_preserves_serverNodup (msg : Message) (prev : List Message)
    (h : ServerNodup prev) : ServerNodup (onNewMessage msg prev) := by
  unfold onNewMessage ServerNodup
  have hkeep : serverIds (prev.filter fun m =>
      !strStartsWith m.id "temp-" || m.content != msg.content
        || m.sender_id != msg.sender_id) = serverIds prev := by
    apply serverIds_filter_keep
    intro m hm
    simp [hm]
  by_cases hany : ((prev.filter fun m =>
      !strStartsWith m.id "temp-" || m.content != msg.content
        || m.sender_id != msg.sender_id).any fun m => m.id == msg.id) = true
  · rw [if_pos hany, hkeep]; exact h
  · rw [if_neg hany, serverIds_append, hkeep]
    cases hs : strStartsWith msg.id "temp-" with
    | true =>
      rw [serverIds_cons_temp msg [] hs,
        show serverIds ([] : List Message) = [] from rfl, List.append_nil]
      exact h
    | false =>
      rw [serverIds_cons_server msg [] hs,
        show serverIds ([] : List Message) = [] from rfl]
      have hnotmem : msg.id ∉ serverIds prev := by
        rw [← hkeep]
        intro hmem
        rcases mem_serverIds.mp hmem with ⟨m, hmemf, _, hid⟩
        exact hany (List.any_eq_true.mpr ⟨m, hmemf, by simp [hid]⟩)
      rw [List.nodup_append]
      exact ⟨h, List.nodup_singleton _, List.disjoint_singleton.mpr hnotmem⟩

/-- C1: for every initial message list containing each server-assigned id at
most once, and for every finite sequence of `handle_new_message`
(`onNewMessage`) calls — including calls whose id matches an already-appended
message, and calls whose (sender_id, content) matches a pending optimistic
entry — the resulting list still contains each server-assigned id at most
once. -/
theorem handle_new_message_no_duplication (init : List Message)
    (msgs : List Message) (h : ServerNodup init) :
    ServerNodup (msgs.foldl (fun l msg => onNewMessage msg l) init) := by
  induction msgs generalizing init with
  | nil => exact h
  | cons m ms ih =>
    exact ih (onNewMessage m init) (onNewMessage_preserves_serverNodup m init h)

/-- Witness for C1 at a concrete run: the initial list holds one server
message and one pending optimistic entry; the event sequence redelivers the
server message (duplicate id) and then delivers the server copy of the
optimistic entry (matching sender and content). -/
theorem handle_new_message_no_duplication_witness :
    ServerNodup
      [⟨"m1", "s1", "doc", "hi", none, none, 0⟩,
       ⟨"temp-7", "s1", "pat", "hola", none, none, 1⟩] ∧
    ServerNodup
      (([⟨"m1", "s1", "doc", "hi", none, none, 0⟩,
         ⟨"m2", "s1", "pat", "hola", some "hello", none, 1⟩] :
          List Message).foldl (fun l msg => onNewMessage msg l)
        [⟨"m1", "s1", "doc", "hi", none, none, 0⟩,
         ⟨"temp-7", "s1", "pat", "hola", none, none, 1⟩]) :=
  ⟨by decide,
   handle_new_message_no_duplication _ _ (by decide)⟩

/-- The `handle_new_message` dedup rule in the words of the specification
(§4.2): first remove every optimistic placeholder — an entry whose id carries
the recognizable temporary tag — whose `(sender_id, content)` pair matches the
incoming message; then, if no remaining entry has the incoming id, append at
the tail, otherwise discard, returning the list with only the optimistic
removal applied. -/
def specHandleNewMessage (msg : Message) (prev : List Message) : List Message :=
  let remaining := prev.filter fun m =>
    !(strStartsWith m.id "temp-" && m.sender_id == msg.sender_id
        && m.content == msg.content)
  if remaining.any fun m => m.id == msg.id then remaining
  else remaining ++ [msg]

/-- C4: the `new_message` handler of the hook coincides with the
specification's dedup rule on every message and every prior list. -/
theorem handle_new_message_refines_spec (msg : Message) (prev : List Message) :
    onNewMessage msg prev = specHandleNewMessage msg prev := by
  unfold onNewMessage specHandleNewMessage
  have hf : (prev.filter fun m =>
      !strStartsWith m.id "temp-" || m.content != msg.content
        || m.sender_id != msg.sender_id)
      = prev.filter fun m =>
      !(strStartsWith m.id "temp-" && m.sender_id == msg.sender_id
          && m.content == msg.content) := by
    apply List.filter_congr
    intro m _
    cases hs : strStartsWith m.id "temp-" <;>
      cases hc : m.content == msg.content <;>
      cases hd : m.sender_id == msg.sender_id <;>
      simp [bne, hs, hc, hd]
  rw [hf]

lemma exists_id_onNewMessage (msg : Message) (prev : List Message) :
    ∃ m ∈ onNewMessage msg prev, m.id = msg.id := by
  unfold onNewMessage
  by_cases hany : ((prev.filter fun m =>
      !strStartsWith m.id "temp-" || m.content != msg.content
        || m.sender_id != msg.sender_id).any fun m => m.id == msg.id) = true
  · rw [if_pos hany]
    rcases List.any_eq_true.mp hany with ⟨m, hm, he⟩
    exact ⟨m, hm, by simpa using he⟩
  · rw [if_neg hany]
    exact ⟨msg, by simp⟩

lemma exists_id_onMessageUpdated (u : MessageUpdate) (l : List Message)
    {i : String} (h : ∃ m ∈ l, m.id = i) :
    ∃ m ∈ onMessageUpdated u l, m.id = i := by
  rcases h with ⟨m, hm, hid⟩
  unfold onMessageUpdated
  refine ⟨_, List.mem_map_of_mem _ hm, ?_⟩
  split <;> simp [hid]

lemma exists_id_foldl_updates (j : String) (us : List String) :
    ∀ l : List Message, (∃ m ∈ l, m.id = j) →
      ∃ m ∈ us.foldl (fun l s => onMessageUpdated ⟨j, s⟩ l) l, m.id = j := by
  induction us with
  | nil => intro l h; exact h
  | cons s us ih =>
    intro l h
    exact ih _ (exists_id_onMessageUpdated _ _ h)

lemma onMessageUpdated_sets_translated (u : MessageUpdate) (l : List Message) :
    ∀ m ∈ onMessageUpdated u l, m.id = u.id →
      m.translated_content = some u.translated_content := by
  intro m hm hid
  unfold onMessageUpdated at hm
  rcases List.mem_map.mp hm with ⟨m₀, hm₀, heq⟩
  by_cases hc : (m₀.id == u.id) = true
  · rw [if_pos hc] at heq
    rw [← heq]
  · rw [if_neg hc] at heq
    subst heq
    exact absurd hid (by simpa using hc)

/-- C2: the `message_updated` handler leaves the length unchanged, leaves
every message with a different id untouched, replaces exactly the
`translated_content` field of a message with the matching id, is the
identity when no message carries the id (the update is discarded, with no
retroactive insert), and after a `new_message` followed by one or more
updates for its id, the stored message exists and its `translated_content`
equals the last update applied. -/
theorem handle_message_updated_spec :
    (∀ (u : MessageUpdate) (prev : List Message),
        (onMessageUpdated u prev).length = prev.length)
  ∧ (∀ (u : MessageUpdate) (prev : List Message) (i : Nat) (m : Message),
        prev[i]? = some m → m.id ≠ u.id → (onMessageUpdated u prev)[i]? = some m)
  ∧ (∀ (u : MessageUpdate) (prev : List Message) (i : Nat) (m : Message),
        prev[i]? = some m → m.id = u.id →
        (onMessageUpdated u prev)[i]? =
          some { m with translated_content := some u.translated_content })
  ∧ (∀ (u : MessageUpdate) (prev : List Message),
        (∀ m ∈ prev, m.id ≠ u.id) → onMessageUpdated u prev = prev)
  ∧ (∀ (msg : Message) (prev : List Message) (us : List String) (t : String),
        us.getLast? = some t →
        ((∃ m ∈ us.foldl (fun l s => onMessageUpdated ⟨msg.id, s⟩ l)
              (onNewMessage msg prev), m.id = msg.id) ∧
          ∀ m ∈ us.foldl (fun l s => onMessageUpdated ⟨msg.id, s⟩ l)
              (onNewMessage msg prev),
            m.id = msg.id → m.translated_content = some t)) := by
  refine ⟨?_, ?_, ?_, ?_, ?_⟩
  · intro u prev
    simp [onMessageUpdated]
  · intro u prev i m h hne
    unfold onMessageUpdated
    rw [List.getElem?_map, h]
    simp [hne]
  · intro u prev i m h hid
    unfold onMessageUpdated
    rw [List.getElem?_map, h]
    simp [hid]
  · intro u prev h
    unfold onMessageUpdated
    have hcongr : ∀ m ∈ prev,
        (if m.id == u.id
          then { m with translated_content := some u.translated_content }
          else m) = id m := by
      intro m hm
      simp [h m hm]
    rw [List.map_congr_left hcongr, List.map_id]
  · intro msg prev us t hlast
    rcases List.getLast?_eq_some_iff.mp hlast with ⟨us₀, rfl⟩
    rw [List.foldl_append]
    constructor
    · exact exists_id_onMessageUpdated _ _
        (exists_id_foldl_updates _ _ _ (exists_id_onNewMessage msg prev))
    · intro m hm hid
      exact onMessageUpdated_sets_translated ⟨msg.id, t⟩ _ m hm hid

/-- Witness for C2 at a concrete run: a base message is delivered into an
empty list and two successive updates for its id are applied; the stored
message carries the last translation. -/
theorem handle_message_updated_spec_witness :
    (∃ m ∈ (["hallo", "hello"] : List String).foldl
          (fun l s => onMessageUpdated ⟨"m1", s⟩ l)
          (onNewMessage ⟨"m1", "s1", "pat", "hola", none, none, 0⟩ []),
        m.id = "m1") ∧
    ∀ m ∈ (["hallo", "hello"] : List String).foldl
          (fun l s => onMessageUpdated ⟨"m1", s⟩ l)
          (onNewMessage ⟨"m1", "s1", "pat", "hola", none, none, 0⟩ []),
      m.id = "m1" → m.translated_content = some "hello" :=
  handle_message_updated_spec.2.2.2.2
    ⟨"m1", "s1", "pat", "hola", none, none, 0⟩ [] ["hallo", "hello"] "hello"
    (by decide)

/-- JavaScript `String.prototype.trim`, embedded on the character sequence:
whitespace is removed from both ends. -/
def strTrim (s : String) : String :=
  ⟨((s.data.dropWhile Char.isWhitespace).reverse.dropWhile Char.isWhitespace).reverse⟩

/-- The payload of the REST send request issued by `sendMessageRest`
(`src/lib/api.ts`): `POST /chat/{session}/send {content, sender_language}`. -/
structure RestSend where
  session_id : String
  content : String
  sender_language : Option String
deriving DecidableEq, Repr

/-- Observable outcome of one `sendMessage` call: the message list
afterwards, the REST request issued (if any), and whether the call
re-threw an error to its caller. -/
structure SendOutcome where
  messages : List Message
  request : Option RestSend
  threw : Bool
deriving DecidableEq, Repr

/-- The `sendMessage` callback of `src/hooks/useMessages.ts`, as a function
of the pre-state and of the outcome of its REST call.  JavaScript falsiness
of `sessionId` and `content.trim()` is emptiness of the strings;
`Date.now()` is the `now` parameter (used in the temporary id and as the
optimistic `created_at`); `user?.id ?? ''` is the `userId` parameter;
`restFails` tells whether `sendMessageRest` rejected. -/
def sendMessage (sessionId userId content : String) (senderLanguage : Option String)
    (now : Nat) (restFails : Bool) (prev : List Message) : SendOutcome :=
  if sessionId == "" || strTrim content == "" then ⟨prev, none, false⟩
  else
    let trimmed := strTrim content
    let tempId := "temp-" ++ toString now
    let optimistic : Message :=
      ⟨tempId, sessionId, userId, trimmed, none, none, now⟩
    let appended := prev ++ [optimistic]
    if restFails then
      ⟨appended.filter fun m => m.id != tempId,
        some ⟨sessionId, trimmed, senderLanguage⟩, true⟩
    else
      ⟨appended, some ⟨sessionId, trimmed, senderLanguage⟩, false⟩

/-- C3: when the REST send fails, the optimistic rollback leaves no entry
with the call's temporary id, adds nothing to the list (every surviving
entry was already present), and the error is re-thrown to the caller. -/
theorem send_failure_rollback (sessionId userId content : String)
    (lang : Option String) (now : Nat) (prev : List Message)
    (hs : sessionId ≠ "") (hc : strTrim content ≠ "") :
    (∀ m ∈ (sendMessage sessionId userId content lang now true prev).messages,
        m.id ≠ "temp-" ++ toString now ∧ m ∈ prev) ∧
    (sendMessage sessionId userId content lang now true prev).threw = true := by
  unfold sendMessage
  rw [if_neg (by simp [hs, hc])]
  simp only [if_pos trivial]
  constructor
  · intro m hm
    rw [List.mem_filter] at hm
    obtain ⟨hmem, hid⟩ := hm
    have hne : m.id ≠ "temp-" ++ toString now := by simpa [bne] using hid
    refine ⟨hne, ?_⟩
    rcases List.mem_append.mp hmem with h | h
    · exact h
    · exact absurd (by simpa using congrArg Message.id (List.mem_singleton.mp h))
        hne
  · trivial

/-- Witness for C3 at a concrete failing send into a one-element list. -/
theorem send_failure_rollback_witness :
    (∀ m ∈ (sendMessage "s1" "u1" " hola " (some "en") 5 true
          [⟨"m1", "s1", "doc", "hi", none, none, 0⟩]).messages,
        m.id ≠ "temp-" ++ toString 5 ∧
          m ∈ [(⟨"m1", "s1", "doc", "hi", none, none, 0⟩ : Message)]) ∧
    (sendMessage "s1" "u1" " hola " (some "en") 5 true
        [⟨"m1", "s1", "doc", "hi", none, none, 0⟩]).threw = true :=
  send_failure_rollback "s1" "u1" " hola " (some "en") 5
    [⟨"m1", "s1", "doc", "hi", none, none, 0⟩] (by decide) (by decide)

/-- C10: a `sendMessage` with a missing session id or whitespace-only
content is a complete no-op (list unchanged, no optimistic entry, no REST
request, nothing thrown); an accepted call trims the content once and uses
the same trimmed text both in the REST request and in the optimistic entry
it appends. -/
theorem send_message_validation_trim :
    (∀ (sessionId userId content : String) (lang : Option String)
        (now : Nat) (restFails : Bool) (prev : List Message),
        sessionId = "" ∨ strTrim content = "" →
        sendMessage sessionId userId content lang now restFails prev
          = ⟨prev, none, false⟩)
  ∧ (∀ (sessionId userId content : String) (lang : Option String)
        (now : Nat) (restFails : Bool) (prev : List Message),
        sessionId ≠ "" → strTrim content ≠ "" →
        (sendMessage sessionId userId content lang now restFails prev).request
            = some ⟨sessionId, strTrim content, lang⟩ ∧
          (restFails = false →
            (sendMessage sessionId userId content lang now restFails prev).messages
              = prev ++ [⟨"temp-" ++ toString now, sessionId, userId,
                  strTrim content, none, none, now⟩])) := by
  constructor
  · intro sessionId userId content lang now restFails prev h
    unfold sendMessage
    rw [if_pos]
    rcases h with h | h <;> simp [h]
  · intro sessionId userId content lang now restFails prev hs hc
    unfold sendMessage
    rw [if_neg (by simp [hs, hc])]
    cases restFails with
    | true => exact ⟨rfl, by intro h; exact absurd h (by simp)⟩
    | false => exact ⟨rfl, fun _ => rfl⟩

/-- Witness for C10: an accepted concrete send appends exactly the trimmed
optimistic entry and issues the trimmed REST request. -/
theorem send_message_validation_trim_witness :
    (sendMessage "s1" "u1" " hola " none 5 false []).request
        = some ⟨"s1", strTrim " hola ", none⟩ ∧
    (sendMessage "s1" "u1" " hola " none 5 false []).messages
        = [] ++ [⟨"temp-" ++ toString 5, "s1", "u1",
            strTrim " hola ", none, none, 5⟩] :=
  ⟨(send_message_validation_trim.2 "s1" "u1" " hola " none 5 false []
      (by decide) (by decide)).1,
   (send_message_validation_trim.2 "s1" "u1" " hola " none 5 false []
      (by decide) (by decide)).2 rfl⟩

/-- Client-to-relay signals emitted on the socket by the hook. -/
inductive SocketEmit where
  | join_room (session_id : String)
  | leave_room (session_id : String)
deriving DecidableEq, Repr

/-- The five listeners the effect of `useMessages` registers on the shared
socket (`connect`, `disconnect`, `error`, `new_message`, `message_updated`);
each flag records whether that listener is currently registered. -/
structure ListenerSet where
  connect : Bool
  disconnect : Bool
  error : Bool
  new_message : Bool
  message_updated : Bool
deriving DecidableEq, Repr

/-- Per-session connection state of the hook: the `connected` React state,
the `joinedRef` flag, the log of signals emitted on the socket so far, and
the registered listeners. -/
structure HookState where
  connected : Bool
  joined : Bool
  emitted : List SocketEmit
  listeners : ListenerSet
deriving DecidableEq, Repr

/-- `joinRoom` of `src/hooks/useMessages.ts`: a no-op when `joinedRef` is
already set, otherwise emit `join_room` and set the flag. -/
def joinRoom (sessionId : String) (s : HookState) : HookState :=
  if s.joined then s
  else { s with
    emitted := s.emitted ++ [SocketEmit.join_room sessionId]
    joined := true }

/-- The `connect` handler (`onConnect`): record connectedness, clear
`joinedRef`, then re-join the room. -/
def onConnect (sessionId : String) (s : HookState) : HookState :=
  joinRoom sessionId { s with connected := true, joined := false }

/-- The `disconnect` handler (`onDisconnect`): it only clears the
`connected` state. -/
def onDisconnect (s : HookState) : HookState :=
  { s with connected := false }

/-- The effect cleanup of `useMessages`: emit `leave_room` only if the
socket is currently connected, unregister all five listeners, clear
`joinedRef`. -/
def cleanup (sessionId : String) (s : HookState) : HookState :=
  { s with
    emitted :=
      if s.connected then s.emitted ++ [SocketEmit.leave_room sessionId]
      else s.emitted
    listeners := ⟨false, false, false, false, false⟩
    joined := false }

/-- Counterexample to C6 as stated: immediately after the disconnect
handler runs on a state whose room is joined, the `room_joined` flag is
still true — the handler does not reset it. -/
theorem disconnect_reset_counterexample :
    ¬ ∀ s : HookState, (onDisconnect s).joined = false := by
  intro h
  exact absurd (h ⟨true, true, [], ⟨true, true, true, true, true⟩⟩) (by decide)

/-- C6 (amended): the disconnect handler clears only `connected` and leaves
`room_joined` untouched; the re-join is nevertheless never skipped, because
the connect handler itself resets `room_joined` to false before joining, so
every connect emits exactly one `join_room`. -/
theorem disconnect_connect_rejoin (sessionId : String) (s : HookState) :
    (onDisconnect s).connected = false ∧
    (onDisconnect s).joined = s.joined ∧
    (onConnect sessionId s).emitted
        = s.emitted ++ [SocketEmit.join_room sessionId] ∧
    (onConnect sessionId s).joined = true ∧
    (onConnect sessionId s).connected = true := by
  refine ⟨rfl, rfl, ?_, ?_, ?_⟩ <;> simp [onConnect, joinRoom]

/-- C7: joining the room twice in a row without an intervening reset is
idempotent: the second call changes nothing, and the pair of calls emits at
most one `join_room` signal, so the (server-side) membership the emission
creates holds the handle exactly once. -/
theorem join_room_idempotent (sessionId : String) (s : HookState) :
    joinRoom sessionId (joinRoom sessionId s) = joinRoom sessionId s ∧
    (joinRoom sessionId (joinRoom sessionId s)).emitted.length ≤
      s.emitted.length + 1 := by
  by_cases h : s.joined <;>
    simp [joinRoom, h]

/-- C8: the cleanup emits `leave_room` exactly when the socket is currently
connected — never while disconnected — and in either case all registered
listeners are unregistered. -/
theorem cleanup_leave_iff_connected (sessionId : String) (s : HookState) :
    (s.connected = true →
      (cleanup sessionId s).emitted
        = s.emitted ++ [SocketEmit.leave_room sessionId]) ∧
    (s.connected = false → (cleanup sessionId s).emitted = s.emitted) ∧
    (cleanup sessionId s).listeners = ⟨false, false, false, false, false⟩ := by
  refine ⟨?_, ?_, rfl⟩ <;> intro h <;> simp [cleanup, h]

/-- Witness for C8 at a concrete connected state: the leave signal is
emitted and the listener set is emptied. -/
theorem cleanup_leave_iff_connected_witness :
    (cleanup "s1" ⟨true, true, [], ⟨true, true, true, true, true⟩⟩).emitted
        = [] ++ [SocketEmit.leave_room "s1"] ∧
    (cleanup "s1" ⟨true, true, [], ⟨true, true, true, true, true⟩⟩).listeners
        = ⟨false, false, false, false, false⟩ :=
  ⟨(cleanup_leave_iff_connected "s1"
      ⟨true, true, [], ⟨true, true, true, true, true⟩⟩).1 rfl,
   (cleanup_leave_iff_connected "s1"
      ⟨true, true, [], ⟨true, true, true, true, true⟩⟩).2.2⟩

/-- Modelled from the spec: the backend messages endpoint behind
`getMessages` of `src/lib/api.ts` is not part of these sources; per the
specification it returns, in stored ascending order, the messages strictly
after the cursor message, and the absence of a cursor returns the earliest
page. -/
def pageAfter : Option String → List Message → List Message
  | none, h => h
  | some c, h => (h.dropWhile fun m => m.id != c).drop 1

/-- Modelled from the spec: `getMessages sessionId limit cursor` —
`GET /chat/{session}/messages?limit&cursor` — returns the page after the
cursor capped at `limit` (`src/lib/api.ts` only forwards the parameters). -/
def getMessages (history : List Message) (limit : Nat)
    (cursor : Option String) : List Message :=
  (pageAfter cursor history).take limit

/-- The loop body of `getAllMessages` (`src/lib/api.ts`): request a page of
`pageSize = 100`, accumulate it, stop on a short page, otherwise continue
with the last returned id as the next cursor.  The `while (true)` loop is
embedded with an explicit fuel argument. -/
def getAllMessagesGo (history : List Message) :
    Nat → Option String → List Message
  | 0, _ => []
  | fuel + 1, cursor =>
    let page := getMessages history 100 cursor
    if page.length < 100 then page
    else
      match page.getLast? with
      | none => page
      | some last => page ++ getAllMessagesGo history fuel (some last.id)

/-- `getAllMessages` of `src/lib/api.ts`: fetch the full history by
paginating from the earliest page; `history.length + 1` rounds of the loop
always suffice. -/
def getAllMessages (history : List Message) : List Message :=
  getAllMessagesGo history (history.length + 1) none

lemma pageAfter_middle (l₂ : List Message) (m : Message) :
    ∀ l₁ : List Message, m.id ∉ l₁.map Message.id →
      pageAfter (some m.id) (l₁ ++ m :: l₂) = l₂ := by
  intro l₁
  induction l₁ with
  | nil =>
    intro _
    simp [pageAfter, List.dropWhile_cons]
  | cons a l₁ ih =>
    intro h
    simp only [List.map_cons, List.mem_cons] at h
    push_neg at h
    have ha : (a.id != m.id) = true := bne_iff_ne.mpr fun hc => h.1 hc.symm
    have tail := ih h.2
    simp only [pageAfter, List.cons_append, List.dropWhile_cons, ha] at tail ⊢
    simpa using tail

lemma not_mem_map_of_nodup_middle {l₁ l₂ : List Message} {m : Message}
    (h : ((l₁ ++ m :: l₂).map Message.id).Nodup) :
    m.id ∉ l₁.map Message.id := by
  rw [List.map_append, List.map_cons, List.nodup_append] at h
  intro hc
  exact h.2.2 hc (List.mem_cons_self _ _)

lemma getAllMessagesGo_correct :
    ∀ (fuel : Nat) (pre rest : List Message) (cursor : Option String),
      (((pre ++ rest).map Message.id)).Nodup →
      pageAfter cursor (pre ++ rest) = rest →
      rest.length < 100 * fuel →
      getAllMessagesGo (pre ++ rest) fuel cursor = rest := by
  intro fuel
  induction fuel with
  | zero =>
    intro pre rest cursor _ _ hlen
    exact absurd hlen (by omega)
  | succ fuel ih =>
    intro pre rest cursor hnd hpage hlen
    have hpage' : getMessages (pre ++ rest) 100 cursor = rest.take 100 := by
      unfold getMessages
      rw [hpage]
    by_cases hshort : rest.length < 100
    · have htake : rest.take 100 = rest :=
        List.take_of_length_le (by omega)
      simp [getAllMessagesGo, hpage', htake, hshort]
    · push_neg at hshort
      have h99 : 99 < rest.length := by omega
      set m99 := rest.get ⟨99, h99⟩ with hm99
      have hdecomp : rest.take 100 = rest.take 99 ++ [m99] := by
        rw [List.take_succ, List.getElem?_eq_getElem h99]
        rfl
      have hlast : (rest.take 100).getLast? = some m99 := by
        rw [hdecomp]
        simp [List.getLast?_concat]
      have hlen100 : (rest.take 100).length = 100 := by
        rw [List.length_take]
        omega
      have hsplit : rest = rest.take 99 ++ m99 :: rest.drop 100 := by
        conv_lhs => rw [← List.take_append_drop 100 rest]
        rw [hdecomp, List.append_assoc]
        rfl
      have hshape : pre ++ rest
          = (pre ++ rest.take 99) ++ m99 :: rest.drop 100 := by
        conv_lhs => rw [hsplit]
        rw [List.append_assoc]
      have hnext : pageAfter (some m99.id) (pre ++ rest) = rest.drop 100 := by
        rw [hshape]
        exact pageAfter_middle _ _ _
          (not_mem_map_of_nodup_middle (by rw [← hshape]; exact hnd))
      have hrest : getAllMessagesGo (pre ++ rest) fuel (some m99.id)
          = rest.drop 100 := by
        have hshape' : pre ++ rest = (pre ++ rest.take 100) ++ rest.drop 100 := by
          rw [List.append_assoc, List.take_append_drop]
        rw [hshape']
        apply ih
        · rw [← hshape']
          exact hnd
        · rw [← hshape']
          exact hnext
        · have : (rest.drop 100).length = rest.length - 100 := by
            simp [List.length_drop]
          omega
      simp only [getAllMessagesGo, hpage', hlen100, hlast]
      rw [if_neg (by omega)]
      rw [hrest]
      exact (List.take_append_drop 100 rest)

/-- C5: with each server-assigned id occurring once in the stored history,
the paginating full-history helper terminates and returns exactly the
single-fetch history: the same ordered messages, with no duplicate ids and
no gaps. -/
theorem get_all_messages_complete (history : List Message)
    (h : (history.map Message.id).Nodup) :
    getAllMessages history = history ∧
    ((getAllMessages history).map Message.id).Nodup := by
  have hrun : getAllMessagesGo history (history.length + 1) none = history := by
    have := getAllMessagesGo_correct (history.length + 1) [] history none
      (by simpa using h) rfl (by omega)
    simpa using this
  unfold getAllMessages
  rw [hrun]
  exact ⟨rfl, h⟩

/-- Witness for C5 at a concrete three-message history. -/
theorem get_all_messages_complete_witness :
    getAllMessages
        [⟨"m1", "s1", "doc", "hi", none, none, 0⟩,
         ⟨"m2", "s1", "pat", "hola", some "hello", none, 1⟩,
         ⟨"m3", "s1", "doc", "bye", none, none, 2⟩]
      = [⟨"m1", "s1", "doc", "hi", none, none, 0⟩,
         ⟨"m2", "s1", "pat", "hola", some "hello", none, 1⟩,
         ⟨"m3", "s1", "doc", "bye", none, none, 2⟩] ∧
    ((getAllMessages
        [⟨"m1", "s1", "doc", "hi", none, none, 0⟩,
         ⟨"m2", "s1", "pat", "hola", some "hello", none, 1⟩,
         ⟨"m3", "s1", "doc", "bye", none, none, 2⟩]).map Message.id).Nodup :=
  get_all_messages_complete _ (by decide)

/-- JavaScript truthiness of the nullable `translated_content` string:
`null`/`undefined` and the empty string are falsy. -/
def optTruthy : Option String → Bool
  | none => false
  | some s => s != ""

/-- The translation line of `SessionChat` below a text bubble: when
`translated_content` is truthy it is rendered only if it differs from the
original content and is not an error sentinel (a bracketed tag); otherwise
nothing is rendered. -/
def shownTranslation (m : Message) : Option String :=
  match m.translated_content with
  | none => none
  | some t =>
    if t != "" then
      if t != m.content && !strStartsWith t "[" then some t else none
    else none

/-- The "Translating..." spinner of `SessionChat`: rendered only in the
non-audio translation block, when `translated_content` is falsy and the
message is younger than 30 seconds (`ageMs > 30_000` hides it). -/
def showTranslating (now : Int) (m : Message) : Bool :=
  if m.audio_url.isSome then false
  else if optTruthy m.translated_content then false
  else decide (now - (m.created_at : Int) ≤ 30000)

/-- Counterexample to C9 as stated: a fresh text message whose
`translated_content` is the empty string is *not* translation-absent, yet
the code (which tests JavaScript truthiness, not absence) still shows the
"Translating..." indicator for it. -/
theorem translating_indicator_counterexample :
    ¬ ∀ (now : Int) (m : Message), m.audio_url = none →
      (showTranslating now m = true ↔
        (m.translated_content = none ∧ now - (m.created_at : Int) ≤ 30000)) := by
  intro h
  have := (h 0 ⟨"m1", "s1", "pat", "hola", some "", none, 0⟩ rfl).mp (by decide)
  exact absurd this.1 (by decide)

/-- C9 (amended): for a displayed text (non-audio) message, the
"Translating..." indicator is shown iff `translated_content` is absent or
empty (JavaScript-falsy) and the elapsed time since creation is at most the
30-second display window; once the window is exceeded with no update, the
indicator is no longer shown and no translation line is rendered either —
the message is treated as translation-less, only its original content is
displayed, with no error state. -/
theorem translating_indicator_window (now : Int) (m : Message)
    (h : m.audio_url = none) :
    (showTranslating now m = true ↔
      (optTruthy m.translated_content = false ∧
        now - (m.created_at : Int) ≤ 30000)) ∧
    (30000 < now - (m.created_at : Int) →
      optTruthy m.translated_content = false →
      showTranslating now m = false ∧ shownTranslation m = none) := by
  constructor
  · rw [showTranslating, h]
    cases ht : optTruthy m.translated_content <;> simp
  · intro hage htr
    constructor
    · rw [showTranslating, h, htr]
      simpa using by omega
    · unfold shownTranslation
      cases hc : m.translated_content with
      | none => rfl
      | some t =>
        have htr' : (t != "") = false := by
          rw [hc] at htr
          simpa [optTruthy] using htr
        simp [hc, htr']

/-- Witness for C9 at a concrete stale message: 40 seconds old, no
translation, so neither the indicator nor a translation line is shown. -/
theorem translating_indicator_window_witness :
    (showTranslating 40000 ⟨"m1", "s1", "pat", "hola", none, none, 0⟩ = true ↔
      (optTruthy (none : Option String) = false ∧
        (40000 : Int) - ((0 : Nat) : Int) ≤ 30000)) ∧
    ((30000 : Int) < (40000 : Int) - ((0 : Nat) : Int) →
      optTruthy (none : Option String) = false →
      showTranslating 40000 ⟨"m1", "s1", "pat", "hola", none, none, 0⟩ = false ∧
        shownTranslation ⟨"m1", "s1", "pat", "hola", none, none, 0⟩ = none) :=
  translating_indicator_window 40000 ⟨"m1", "s1", "pat", "hola", none, none, 0⟩
    rfl

end MediBridge
